import Mathlib

/-!
Verification of the file-search-app indexing and search engine.

This file shallowly embeds the parts of the program that the checked
properties talk about:

* the shard router (MD5 of the UTF-8 path bytes modulo the shard count),
  from src/file_search_app.py and src/modules/search/database_manager.py;
* the dedup-and-rank step of the query planner;
* the text normalizer and the cache-side matcher
  (src/modules/utils/system_utils.py);
* the tiered cache state machine (index / move-to-hot / move-to-complete)
  and the cache-manager shutdown path;
* the durable upsert error protocol and its field sanitization.

Machine integers are modeled as Nat with explicit masking; Python dicts
are modeled as association lists in insertion order; Unicode-table
operations of the Python standard library (NFKC normalization, full
case mapping) are abstracted as function parameters, since the checked
properties hold for every choice of those functions.
-/

/-! ## Basic helpers (Python string/list semantics) -/

/-- Whitespace set of Python str.strip / str.split with no arguments
(characters for which Python str.isspace is true). -/
def pyIsSpace (c : Char) : Bool :=
  let n := c.toNat
  decide ((9 ≤ n ∧ n ≤ 13) ∨ (28 ≤ n ∧ n ≤ 31) ∨ n = 32 ∨ n = 0x85 ∨
    n = 0xA0 ∨ n = 0x1680 ∨ (0x2000 ≤ n ∧ n ≤ 0x200A) ∨ n = 0x2028 ∨
    n = 0x2029 ∨ n = 0x202F ∨ n = 0x205F ∨ n = 0x3000)

/-- Python str.strip(): remove leading and trailing whitespace. -/
def pyStrip (s : String) : String :=
  String.mk (((s.data.dropWhile pyIsSpace).reverse.dropWhile pyIsSpace).reverse)

/-- Python s[:n] on a str (slice of the first n code points). -/
def pyTake (n : Nat) (s : String) : String :=
  String.mk (s.data.take n)

/-- Test whether the first list is an initial segment of the second. -/
def hasPrefixCL : List Char → List Char → Bool
  | [], _ => true
  | _ :: _, [] => false
  | a :: xs, b :: ys => a == b && hasPrefixCL xs ys

/-- Test whether the first list occurs as a contiguous run inside the second
(Python: pat in s). -/
def hasSubCL (pat : List Char) : List Char → Bool
  | [] => pat.isEmpty
  | b :: rest => hasPrefixCL pat (b :: rest) || hasSubCL pat rest

/-- Python: pat in s, on str. -/
def strIn (pat s : String) : Bool :=
  hasSubCL pat.data s.data

/-- Python str.lower restricted to ASCII letters (the only case relevant to
the SQLite error messages it is applied to in the source). -/
def asciiLower (s : String) : String :=
  String.mk (s.data.map fun c =>
    if 65 ≤ c.toNat ∧ c.toNat ≤ 90 then Char.ofNat (c.toNat + 32) else c)

/-- Insert an element into a sorted list, before the first element b with
le a b (the stable insertion step). -/
def insertSorted {A : Type} (le : A → A → Bool) (a : A) : List A → List A
  | [] => [a]
  | b :: l => if le a b then a :: b :: l else b :: insertSorted le a l

/-- Stable sort by the Boolean comparator le (insertion sort). Python
list.sort and sorted are stable, and any two stable sorts under the same
total preorder agree, so this models them faithfully; it is structurally
recursive so that witnesses can evaluate it. -/
def pyStableSort {A : Type} (le : A → A → Bool) : List A → List A
  | [] => []
  | a :: l => insertSorted le a (pyStableSort le l)

/-- Base name of a path: the suffix after the last path separator
(os.path.basename / pathlib name on the separators the app uses). -/
def pyBasename (p : String) : String :=
  String.mk ((p.data.reverse.takeWhile (fun c => c ≠ '/' ∧ c ≠ '\\')).reverse)

/-! ## UTF-8 encoding (for hashing the file path, as str.encode) -/

/-- UTF-8 byte sequence of one code point. -/
def utf8EncodeChar (c : Char) : List Nat :=
  let n := c.toNat
  if n < 0x80 then [n]
  else if n < 0x800 then
    [0xC0 ||| (n >>> 6), 0x80 ||| (n &&& 0x3F)]
  else if n < 0x10000 then
    [0xE0 ||| (n >>> 12), 0x80 ||| ((n >>> 6) &&& 0x3F), 0x80 ||| (n &&& 0x3F)]
  else
    [0xF0 ||| (n >>> 18), 0x80 ||| ((n >>> 12) &&& 0x3F),
     0x80 ||| ((n >>> 6) &&& 0x3F), 0x80 ||| (n &&& 0x3F)]

/-- Python file_path.encode(utf-8), as a list of byte values. -/
def utf8Bytes (s : String) : List Nat :=
  s.data.flatMap utf8EncodeChar

/-! ## MD5 (hashlib.md5), on lists of byte values -/

/-- Reduce modulo 2^32. -/
def u32 (n : Nat) : Nat := n % 4294967296

/-- Bitwise complement on 32-bit words. -/
def not32 (x : Nat) : Nat := 4294967295 ^^^ x

/-- Rotate a 32-bit word left by n bits. -/
def rotl32 (x n : Nat) : Nat :=
  u32 ((x <<< n) ||| (x >>> (32 - n)))

/-- MD5 sine-derived round constants. -/
def md5K : List Nat :=
  [0xd76aa478, 0xe8c7b756, 0x242070db, 0xc1bdceee,
   0xf57c0faf, 0x4787c62a, 0xa8304613, 0xfd469501,
   0x698098d8, 0x8b44f7af, 0xffff5bb1, 0x895cd7be,
   0x6b901122, 0xfd987193, 0xa679438e, 0x49b40821,
   0xf61e2562, 0xc040b340, 0x265e5a51, 0xe9b6c7aa,
   0xd62f105d, 0x02441453, 0xd8a1e681, 0xe7d3fbc8,
   0x21e1cde6, 0xc33707d6, 0xf4d50d87, 0x455a14ed,
   0xa9e3e905, 0xfcefa3f8, 0x676f02d9, 0x8d2a4c8a,
   0xfffa3942, 0x8771f681, 0x6d9d6122, 0xfde5380c,
   0xa4beea44, 0x4bdecfa9, 0xf6bb4b60, 0xbebfbc70,
   0x289b7ec6, 0xeaa127fa, 0xd4ef3085, 0x04881d05,
   0xd9d4d039, 0xe6db99e5, 0x1fa27cf8, 0xc4ac5665,
   0xf4292244, 0x432aff97, 0xab9423a7, 0xfc93a039,
   0x655b59c3, 0x8f0ccc92, 0xffeff47d, 0x85845dd1,
   0x6fa87e4f, 0xfe2ce6e0, 0xa3014314, 0x4e0811a1,
   0xf7537e82, 0xbd3af235, 0x2ad7d2bb, 0xeb86d391]

/-- MD5 per-round left-rotation amounts. -/
def md5S : List Nat :=
  [7, 12, 17, 22, 7, 12, 17, 22, 7, 12, 17, 22, 7, 12, 17, 22,
   5, 9, 14, 20, 5, 9, 14, 20, 5, 9, 14, 20, 5, 9, 14, 20,
   4, 11, 16, 23, 4, 11, 16, 23, 4, 11, 16, 23, 4, 11, 16, 23,
   6, 10, 15, 21, 6, 10, 15, 21, 6, 10, 15, 21, 6, 10, 15, 21]

/-- MD5 nonlinear function for round i. -/
def md5F (i b c d : Nat) : Nat :=
  if i < 16 then (b &&& c) ||| (not32 b &&& d)
  else if i < 32 then (d &&& b) ||| (not32 d &&& c)
  else if i < 48 then b ^^^ c ^^^ d
  else c ^^^ (b ||| not32 d)

/-- MD5 message-word index for round i. -/
def md5G (i : Nat) : Nat :=
  if i < 16 then i
  else if i < 32 then (5 * i + 1) % 16
  else if i < 48 then (3 * i + 5) % 16
  else (7 * i) % 16

/-- Little-endian bytes of a number (count bytes). -/
def leBytes (n count : Nat) : List Nat :=
  (List.range count).map fun i => (n >>> (8 * i)) % 256

/-- MD5 padding: 0x80, zeros to 56 mod 64, then the 64-bit little-endian
bit length. -/
def md5Pad (msg : List Nat) : List Nat :=
  let len := msg.length
  let zeros := (120 - ((len + 1) % 64)) % 64
  msg ++ [0x80] ++ List.replicate zeros 0 ++ leBytes ((8 * len) % 2 ^ 64) 8

/-- Little-endian 32-bit word j of a 64-byte chunk. -/
def chunkWord (chunk : List Nat) (j : Nat) : Nat :=
  chunk.getD (4 * j) 0 + (chunk.getD (4 * j + 1) 0) <<< 8 +
    (chunk.getD (4 * j + 2) 0) <<< 16 + (chunk.getD (4 * j + 3) 0) <<< 24

/-- One MD5 round applied to the running (a, b, c, d) state. -/
def md5Round (chunk : List Nat) (st : Nat × Nat × Nat × Nat) (i : Nat) :
    Nat × Nat × Nat × Nat :=
  match st with
  | (a, b, c, d) =>
    let f := u32 (md5F i b c d + a + md5K.getD i 0 + chunkWord chunk (md5G i))
    (d, u32 (b + rotl32 f (md5S.getD i 0)), b, c)

/-- Process one 64-byte chunk. -/
def md5Chunk (chunk : List Nat) (st : Nat × Nat × Nat × Nat) :
    Nat × Nat × Nat × Nat :=
  match st with
  | (a0, b0, c0, d0) =>
    match (List.range 64).foldl (md5Round chunk) (a0, b0, c0, d0) with
    | (a, b, c, d) => (u32 (a0 + a), u32 (b0 + b), u32 (c0 + c), u32 (d0 + d))

/-- Process 64-byte chunks, with fuel for structural recursion (the fuel
passed by md5Chunks always suffices). -/
def md5ChunksGo : Nat → List Nat → Nat × Nat × Nat × Nat → Nat × Nat × Nat × Nat
  | 0, _, st => st
  | fuel + 1, bytes, st =>
    if bytes.isEmpty then st
    else md5ChunksGo fuel (bytes.drop 64) (md5Chunk (bytes.take 64) st)

/-- Process all 64-byte chunks of an already padded message. -/
def md5Chunks (bytes : List Nat) (st : Nat × Nat × Nat × Nat) :
    Nat × Nat × Nat × Nat :=
  md5ChunksGo bytes.length bytes st

/-- MD5 digest of a byte sequence, as the 16 digest bytes. -/
def md5Digest (msg : List Nat) : List Nat :=
  match md5Chunks (md5Pad msg) (0x67452301, 0xefcdab89, 0x98badcfe, 0x10325476) with
  | (a, b, c, d) => leBytes a 4 ++ leBytes b 4 ++ leBytes c 4 ++ leBytes d 4

/-- Lowercase hex character of a value below 16. -/
def hexChar (n : Nat) : Char :=
  if n < 10 then Char.ofNat (48 + n) else Char.ofNat (87 + n)

/-- Two lowercase hex characters of a byte, high nibble first. -/
def byteToHex (b : Nat) : List Char :=
  [hexChar (b / 16), hexChar (b % 16)]

/-- Python hashlib.md5(...).hexdigest(): the digest bytes in order, two
lowercase hex characters per byte. -/
def md5Hexdigest (msg : List Nat) : String :=
  String.mk ((md5Digest msg).flatMap byteToHex)

/-- Numeric value of one lowercase/uppercase hex character. -/
def hexCharVal (c : Char) : Nat :=
  if 97 ≤ c.toNat then c.toNat - 87
  else if 65 ≤ c.toNat then c.toNat - 55
  else c.toNat - 48

/-- Python int(s, 16) on a hex string. -/
def intOfHex (s : String) : Nat :=
  s.data.foldl (fun acc c => 16 * acc + hexCharVal c) 0

/-- The digest bytes read as one big-endian 128-bit number (the value that
int(hexdigest, 16) denotes). -/
def beNat (bytes : List Nat) : Nat :=
  bytes.foldl (fun acc b => 256 * acc + b) 0

/-- MD5 of a byte sequence as a 128-bit number. -/
def md5Nat (msg : List Nat) : Nat :=
  beNat (md5Digest msg)

/-- Shard router, from file_search_app._get_db_index_for_file and
database_manager.get_db_index_for_file:
int(hashlib.md5(file_path.encode(utf-8)).hexdigest(), 16) % db_count. -/
def get_db_index_for_file (file_path : String) (db_count : Nat) : Nat :=
  intOfHex (md5Hexdigest (utf8Bytes file_path)) % db_count

/-! ## Query planner: dedup and rank (_deduplicate_and_rank_optimized) -/

/-- One result row as produced by the tier searches: path, source layer
label and relevance score. -/
structure Row where
  file_path : String
  layer : String
  relevance_score : Rat
deriving DecidableEq

/-- Python layer.split(underscore)[0] if the separator occurs, else the
layer itself: the part of the layer label before the first underscore. -/
def layer_base (layer : String) : String :=
  String.mk (layer.data.takeWhile fun c => c ≠ '_')

/-- The priority_map lookup of _deduplicate_and_rank_optimized, default 1. -/
def layer_priority (layer : String) : Nat :=
  if layer_base layer = "complete" then 1000
  else if layer_base layer = "immediate" then 100
  else if layer_base layer = "hot" then 10
  else 1

/-- Sort key of _deduplicate_and_rank_optimized: (tier priority, score). -/
def get_priority (r : Row) : Nat × Rat :=
  (layer_priority r.layer, r.relevance_score)

/-- Lexicographic order on (priority, score) pairs, as Bool. -/
def keyLE (x y : Nat × Rat) : Bool :=
  decide (x.1 < y.1) || (decide (x.1 = y.1) && decide (x.2 ≤ y.2))

/-- Comparator realizing results.sort(key=get_priority, reverse=True):
a may precede b when the key of b is at most the key of a. -/
def rowSortLE (a b : Row) : Bool :=
  keyLE (get_priority b) (get_priority a)

/-- Keep only the first occurrence of each file_path (the seen_paths walk). -/
def dedupByPathGo (seen : List String) : List Row → List Row
  | [] => []
  | r :: rest =>
    if r.file_path ∈ seen then dedupByPathGo seen rest
    else r :: dedupByPathGo (r.file_path :: seen) rest

/-- The dedup-and-rank step: sort by (tier priority desc, score desc) and
keep the first occurrence of each path. -/
def deduplicate_and_rank_optimized (results : List Row) : List Row :=
  if results = [] then []
  else dedupByPathGo [] (pyStableSort rowSortLE results)

/-- Coarse tier priority as the specification words it: any layer beginning
with complete is 1000, immediate 100, hot 10, anything else lower. -/
def spec_tier_priority (layer : String) : Nat :=
  if hasPrefixCL "complete".data layer.data then 1000
  else if layer = "immediate" then 100
  else if layer = "hot" then 10
  else 1

/-- Specification-side sort key. -/
def spec_key (r : Row) : Nat × Rat :=
  (spec_tier_priority r.layer, r.relevance_score)

/-- Lexicographic comparison of keys, as a proposition. -/
def keyLEP (x y : Nat × Rat) : Prop :=
  x.1 < y.1 ∨ (x.1 = y.1 ∧ x.2 ≤ y.2)

/-! ## Search entry point (ultra_fast_search) -/

/-- Three-tier search entry point. The three per-tier search functions are
abstract parameters; the complete-layer search receives max_results (it
truncates internally in the source). -/
def ultra_fast_search (imm hot : String → List Row)
    (comp : String → Nat → List Row) (query : String) (max_results : Nat) :
    List Row :=
  if query = "" ∨ pyStrip query = "" then []
  else
    let q := pyStrip query
    let immediate_results := imm q
    if immediate_results ≠ [] then immediate_results.take max_results
    else
      let hot_results := hot q
      if hot_results ≠ [] then hot_results.take max_results
      else comp q max_results

/-! ## Text normalizer (normalize_search_text_ultra) -/

/-- Full-width form: shift each printable ASCII character from ! to ~ up by
0xFEE0. -/
def toFullWidth (s : String) : String :=
  String.mk (s.data.map fun c =>
    if 33 ≤ c.toNat ∧ c.toNat ≤ 126 then Char.ofNat (c.toNat + 0xFEE0) else c)

/-- Hiragana (U+3041 to U+3096) shifted up by 0x60 to katakana. -/
def hiraToKata (s : String) : String :=
  String.mk (s.data.map fun c =>
    if 0x3041 ≤ c.toNat ∧ c.toNat ≤ 0x3096 then Char.ofNat (c.toNat + 0x60) else c)

/-- Katakana (U+30A1 to U+30F6) shifted down by 0x60 to hiragana. -/
def kataToHira (s : String) : String :=
  String.mk (s.data.map fun c =>
    if 0x30A1 ≤ c.toNat ∧ c.toNat ≤ 0x30F6 then Char.ofNat (c.toNat - 0x60) else c)

/-- Python text.split() with no arguments: maximal runs of non-whitespace. -/
def pySplitGo : List Char → List Char → List String
  | [], acc => if acc.isEmpty then [] else [String.mk acc.reverse]
  | c :: rest, acc =>
    if pyIsSpace c then
      if acc.isEmpty then pySplitGo rest []
      else String.mk acc.reverse :: pySplitGo rest []
    else pySplitGo rest (c :: acc)

/-- Python text.split() on a str. -/
def pySplit (s : String) : List String :=
  pySplitGo s.data []

/-- The per-character pattern loop: append each character of the text that
is not already present and does not strip to empty. -/
def addCharPatterns (text : String) (patterns : List String) : List String :=
  text.data.foldl (fun acc c =>
    let ch := String.mk [c]
    if ch ∈ acc ∨ pyStrip ch = "" then acc else acc ++ [ch]) patterns

/-- The bigram loop: append text[i:i+2] for each i when not present. -/
def addBigramPatterns (text : String) (patterns : List String) : List String :=
  (List.range (text.length - 1)).foldl (fun acc i =>
    let bigram := String.mk ((text.data.drop i).take 2)
    if bigram ∈ acc then acc else acc ++ [bigram]) patterns

/-- The whitespace-token loop: append each word and its NFKC form when not
present. -/
def addWordPatterns (nfkc : String → String) (words : List String)
    (patterns : List String) : List String :=
  words.foldl (fun acc w =>
    let acc1 := if w ∈ acc then acc else acc ++ [w]
    let wh := nfkc w
    if wh ∈ acc1 then acc1 else acc1 ++ [wh]) patterns

/-- The dedup walk over the collected patterns: unique_patterns starts as
[text] and each pattern is appended when not already present and not equal
to the original text. -/
def uniquePatternsGo (text : String) (acc : List String) :
    List String → List String
  | [] => acc
  | p :: rest =>
    if p ∈ acc ∨ p = text then uniquePatternsGo text acc rest
    else uniquePatternsGo text (acc ++ [p]) rest

/-- Comparator realizing sorted(key=len, reverse=True) on strings. -/
def lenDescLE (a b : String) : Bool :=
  decide (b.length ≤ a.length)

/-- The query normalizer normalize_search_text_ultra. NFKC normalization
and Unicode lowercasing delegate to the Python standard library in the
source; they are abstract function parameters here. Returns
(half-width form, full-width form, hiragana-to-katakana form, patterns). -/
def normalize_search_text_ultra (nfkc lower : String → String)
    (text : String) : String × String × String × List String :=
  if text = "" then ("", "", "", [])
  else
    let patterns0 := [text]
    let half_width := nfkc text
    let patterns1 := if half_width = text then patterns0 else patterns0 ++ [half_width]
    let full_width := toFullWidth text
    let patterns2 := if full_width = text then patterns1 else patterns1 ++ [full_width]
    let normalized := lower text
    let patterns3 := if normalized = text then patterns2 else patterns2 ++ [normalized]
    let patterns4 :=
      if 2 ≤ text.length then addBigramPatterns text (addCharPatterns text patterns3)
      else patterns3
    let hira2kata := hiraToKata normalized
    let patterns5 := if hira2kata = normalized then patterns4 else patterns4 ++ [hira2kata]
    let kata2hira := kataToHira normalized
    let patterns6 := if kata2hira = normalized then patterns5 else patterns5 ++ [kata2hira]
    let words := pySplit text
    let patterns7 := if 2 ≤ words.length then addWordPatterns nfkc words patterns6 else patterns6
    let unique := uniquePatternsGo text [text] patterns7
    let final := unique.headD text :: pyStableSort lenDescLE unique.tail
    (half_width, full_width, hira2kata, final)

/-! ## Cache-side matcher (enhanced_search_match) -/

/-- The five folded variants built symmetrically for both the text and each
pattern: original, lowered, NFKC of the lowered form, hiragana-to-katakana
of the lowered form, katakana-to-hiragana of the lowered form. -/
def foldVariants (nfkc lower : String → String) (s : String) : List String :=
  let sl := lower s
  [s, sl, nfkc sl, hiraToKata sl, kataToHira sl]

/-- The per-variant strictness gate and comparison of enhanced_search_match,
where q0 is the original query (first pattern), pv one pattern variant and
tv one text variant. -/
def variantGateAndMatch (q0 pv tv : String) : Bool :=
  if 3 ≤ q0.length ∧ (pyStrip pv).length < 3 then false
  else if q0.length = 2 ∧ (pyStrip pv).length < 2 then false
  else if q0.length = 1 ∧ (pyStrip pv).length < 1 then false
  else if pv = tv then true
  else if 4 ≤ q0.length then decide (pv = q0) && strIn pv tv
  else if 2 ≤ pv.length then strIn pv tv
  else false

/-- The cache-side matcher enhanced_search_match. -/
def enhanced_search_match (nfkc lower : String → String) (text : String)
    (query_patterns : List String) : Bool :=
  if text = "" ∨ query_patterns = [] then false
  else
    let text_variants := foldVariants nfkc lower text
    let q0 := query_patterns.headD ""
    query_patterns.any fun pattern =>
      let pattern_variants := foldVariants nfkc lower pattern
      text_variants.any fun tv =>
        pattern_variants.any fun pv => variantGateAndMatch q0 pv tv

/-! ## Tiered cache state machine (index, move-to-hot, move-to-complete) -/

/-- The two cache maps (path to entry, insertion-ordered, entries reduced to
their indexed_time) plus the set of paths upserted into the durable
complete layer. -/
structure CacheState where
  immediate : List (String × Nat)
  hot : List (String × Nat)
  complete : List String
deriving DecidableEq

/-- The state with all tiers empty. -/
def emptyCacheState : CacheState := ⟨[], [], []⟩

/-- Python: key in dict. -/
def memKey (l : List (String × Nat)) (k : String) : Bool :=
  l.any fun kv => kv.1 == k

/-- Python: dict.get(key). -/
def lookupKey (l : List (String × Nat)) (k : String) : Option Nat :=
  (l.find? fun kv => kv.1 == k).map (·.2)

/-- Python: dict[key] = value (replace in place, else append). -/
def insertKey (l : List (String × Nat)) (k : String) (v : Nat) :
    List (String × Nat) :=
  if memKey l k then l.map fun kv => if kv.1 == k then (k, v) else kv
  else l ++ [(k, v)]

/-- Python: del dict[key] (no-op when absent, as used via pop). -/
def eraseKey (l : List (String × Nat)) (k : String) : List (String × Nat) :=
  l.filter fun kv => kv.1 != k

/-- Ascending comparison by indexed_time, for the eviction sort. -/
def timeAscLE (a b : String × Nat) : Bool :=
  decide (a.2 ≤ b.2)

/-- The immediate-tier size cap: when over max_immediate_cache, sort the
items by indexed_time and delete the oldest 10 percent (at least one). -/
def immediateCleanup (max_immediate : Nat) (cache : List (String × Nat)) :
    List (String × Nat) :=
  if max_immediate < cache.length then
    let sorted_items := pyStableSort timeAscLE cache
    let cleanup_count := max 1 (max_immediate / 10)
    let doomed := (sorted_items.take cleanup_count).map (·.1)
    cache.filter fun kv => !(doomed.contains kv.1)
  else cache

/-- Python min(keys, key=time) walk: keeps the first strictly smaller. -/
def minTimeKeyGo : List (String × Nat) → String → Nat → String
  | [], k, _ => k
  | (k2, t2) :: rest, k, t =>
    if t2 < t then minTimeKeyGo rest k2 t2 else minTimeKeyGo rest k t

/-- First key of minimal indexed_time, as Python min over dict keys. -/
def minTimeKey : List (String × Nat) → String
  | [] => ""
  | (k, t) :: rest => minTimeKeyGo rest k t

/-- The hot-tier insert with its size cap: when over max_hot_cache, delete
the single entry of oldest indexed_time. -/
def hotCacheInsert (max_hot : Nat) (hot : List (String × Nat)) (k : String)
    (t : Nat) : List (String × Nat) :=
  let h1 := insertKey hot k t
  if max_hot < h1.length then eraseKey h1 (minTimeKey h1) else h1

/-- Promotion _move_to_hot_layer: pop the path from the immediate tier
(falling back to rebuilt metadata stamped now when absent), then insert the
entry into the hot tier, keeping the original indexed_time. -/
def move_to_hot_layer (max_hot now : Nat) (file_path : String)
    (st : CacheState) : CacheState :=
  let base_time := (lookupKey st.immediate file_path).getD now
  { st with
    immediate := eraseKey st.immediate file_path
    hot := hotCacheInsert max_hot st.hot file_path base_time }

/-- Promotion _move_to_complete_layer: pop the path from the hot tier, then
upsert the document into its shard (success path of _add_to_complete_layer,
reduced to path membership). -/
def move_to_complete_layer (file_path : String) (st : CacheState) :
    CacheState :=
  { st with
    hot := eraseKey st.hot file_path
    complete :=
      if st.complete.contains file_path then st.complete
      else st.complete ++ [file_path] }

/-- Outcome of live_progressive_index_file: the boolean return value, the
content that was indexed (none when rejected), and the new cache state. -/
structure IndexOutcome where
  returned : Bool
  indexedContent : Option String
  state : CacheState
deriving DecidableEq

/-- Indexing entry point live_progressive_index_file. The extractor is an
abstract parameter; cancelled and fileExists stand for the cancel flag and
the existence check; size is the file size from stat; now is time.time().
The hot/complete promotions are scheduled on timers in the source and are
separate transitions here (move_to_hot_layer, move_to_complete_layer). -/
def live_progressive_index_file (extract : String → String)
    (cancelled fileExists : Bool) (max_immediate now size : Nat)
    (file_path : String) (st : CacheState) : IndexOutcome :=
  if cancelled then ⟨false, none, st⟩
  else if hasPrefixCL "._".data (pyBasename file_path).data then ⟨false, none, st⟩
  else if hasPrefixCL ".DS_Store".data (pyBasename file_path).data ||
      hasPrefixCL "Thumbs.db".data (pyBasename file_path).data then ⟨false, none, st⟩
  else if !fileExists then ⟨false, none, st⟩
  else if 500 * 1024 * 1024 < size then ⟨false, none, st⟩
  else
    let content :=
      if 3 * 1024 * 1024 ≤ size then pyBasename file_path else extract file_path
    if content = "" then ⟨false, none, st⟩
    else
      ⟨true, some content,
       { st with immediate :=
          immediateCleanup max_immediate (insertKey st.immediate file_path now) }⟩

/-- One cache-tier operation: an index call or one of the two timer-driven
promotions. indexFile carries the content the extractor would return. -/
inductive CacheOp where
  | indexFile (now size : Nat) (path content : String)
  | moveToHot (now : Nat) (path : String)
  | moveToComplete (path : String)
deriving DecidableEq

/-- Apply one operation to the cache state (index calls with the cancel
flag clear and the file existing). -/
def applyCacheOp (max_immediate max_hot : Nat) (st : CacheState) :
    CacheOp → CacheState
  | .indexFile now size path content =>
    (live_progressive_index_file (fun _ => content) false true max_immediate
      now size path st).state
  | .moveToHot now path => move_to_hot_layer max_hot now path st
  | .moveToComplete path => move_to_complete_layer path st

/-- Run a sequence of operations from a starting state. -/
def runCacheOps (max_immediate max_hot : Nat) (st : CacheState)
    (ops : List CacheOp) : CacheState :=
  ops.foldl (applyCacheOp max_immediate max_hot) st

/-! ## Cache-manager persistence and shutdown -/

/-- CacheManager state for the persistence protocol: the hot map, the
shutdown flag, the content last written to cache/hot_cache.json (none when
never written) and the number of completed saves. -/
structure CMState where
  hot : List (String × Nat)
  shutdown_requested : Bool
  savedHot : Option (List (String × Nat))
  saveCount : Nat
deriving DecidableEq

/-- CacheManager.save_caches: skipped entirely when shutdown_requested is
set, otherwise writes the hot map to cache/hot_cache.json. -/
def cm_save_caches (st : CMState) : CMState :=
  if st.shutdown_requested then st
  else { st with savedHot := some st.hot, saveCount := st.saveCount + 1 }

/-- CacheManager.shutdown: set shutdown_requested, cancel the move timers
(no state effect here), then call save_caches as the final cache save. -/
def cm_shutdown (st : CMState) : CMState :=
  cm_save_caches { st with shutdown_requested := true }

/-- The monolith shutdown path _save_caches_sync: writes the hot map when
it is non-empty, without consulting shutdown_requested. -/
def app_save_caches_sync (st : CMState) : CMState :=
  if st.hot = [] then st
  else { st with savedHot := some st.hot, saveCount := st.saveCount + 1 }

/-- The monolith shutdown: set the flag, then perform the synchronous final
save. -/
def app_shutdown (st : CMState) : CMState :=
  app_save_caches_sync { st with shutdown_requested := true }

/-! ## Durable upsert error protocol (add_document_to_db) -/

/-- Outcome of one connect-and-write transaction attempt against the shard
store, as raised by the SQLite layer. -/
inductive SqlOutcome where
  | ok
  | operationalError (msg : String)
  | integrityError (msg : String)
  | otherError
deriving DecidableEq

/-- Observable result of the upsert: the boolean it returned, whether an
exception escaped it, how many repair deletions of stale rows by path it
executed, and how many write transactions it attempted. -/
structure UpsertResult where
  returned : Bool
  raised : Bool
  repairDeletes : Nat
  writeAttempts : Nat
deriving DecidableEq

/-- The retry loop of database_manager.add_document_to_db over the
outcome schedule of the successive attempts. Operational errors whose
lowered message mentions a locked or busy database retry with back-off
while attempts remain; every other exception (including the integrity
errors of constraint violations, which the function has no handler for)
falls to the generic handler, which logs and returns False. The function
contains no repair deletion, so repairDeletes is always zero. -/
def addDocLoop (outcomes : Nat → SqlOutcome) : Nat → Nat → UpsertResult
  | 0, attemptsDone => ⟨false, false, 0, attemptsDone⟩
  | remaining + 1, attemptsDone =>
    match outcomes attemptsDone with
    | .ok => ⟨true, false, 0, attemptsDone + 1⟩
    | .operationalError msg =>
      if (strIn "database is locked" (asciiLower msg) ||
          strIn "database is busy" (asciiLower msg)) && decide (0 < remaining) then
        addDocLoop outcomes remaining (attemptsDone + 1)
      else ⟨false, false, 0, attemptsDone + 1⟩
    | .integrityError _ => ⟨false, false, 0, attemptsDone + 1⟩
    | .otherError => ⟨false, false, 0, attemptsDone + 1⟩

/-- The durable upsert add_document_to_db (max_retries = 8). -/
def add_document_to_db (outcomes : Nat → SqlOutcome) : UpsertResult :=
  addDocLoop outcomes 8 0

/-! ## Upsert field sanitization (shared by insert and update paths) -/

/-- Python s.replace(NUL, empty). -/
def removeNul (s : String) : String :=
  String.mk (s.data.filter fun c => decide (c.toNat ≠ 0))

/-- The sanitized (content, file_name, file_type) triple computed before
the insert/update branch of the durable upsert: content truncated to
2,000,000 characters, file_name truncated to 500 (falling back to the base
name of the path when empty), file_type truncated to 100 (falling back to
unknown), then NUL characters removed from content and file_name. -/
def sanitize_document_fields (content file_name file_type file_path : String) :
    String × String × String :=
  let safe_content := if content = "" then "" else pyTake 2000000 content
  let safe_file_name :=
    if file_name = "" then pyBasename file_path else pyTake 500 file_name
  let safe_file_type := if file_type = "" then "unknown" else pyTake 100 file_type
  (removeNul safe_content, removeNul safe_file_name, safe_file_type)

/-- A string is free of NUL characters. -/
def noNulB (s : String) : Bool :=
  s.data.all fun c => decide (c.toNat ≠ 0)

/-- One documents row as bound by the SQL statements. -/
structure DocRow where
  file_path : String
  file_name : String
  content : String
  file_type : String
deriving DecidableEq

/-- The row bound by the INSERT path of the upsert. -/
def upsertInsertRow (content file_name file_type file_path : String) : DocRow :=
  match sanitize_document_fields content file_name file_type file_path with
  | (c, n, t) => ⟨file_path, n, c, t⟩

/-- The row bound by the UPDATE path of the upsert (the same sanitized
values, written to the existing row of the path). -/
def upsertUpdateRow (content file_name file_type file_path : String) : DocRow :=
  match sanitize_document_fields content file_name file_type file_path with
  | (c, n, t) => ⟨file_path, n, c, t⟩

/-! ## Theorems

General helper lemmas first, then one theorem per checked claim (with its
witness or counterexample where applicable). -/

theorem insertSorted_perm {A : Type} (le : A → A → Bool) (a : A) :
    ∀ l : List A, (insertSorted le a l).Perm (a :: l) := by
  intro l
  induction l with
  | nil => exact List.Perm.refl _
  | cons b l ih =>
    unfold insertSorted
    by_cases h : le a b
    · rw [if_pos h]
    · rw [if_neg h]
      exact (ih.cons b).trans (List.Perm.swap a b l)

theorem mem_insertSorted {A : Type} (le : A → A → Bool) (a x : A) (l : List A) :
    x ∈ insertSorted le a l ↔ x = a ∨ x ∈ l :=
  ((insertSorted_perm le a l).mem_iff).trans List.mem_cons

theorem insertSorted_pairwise {A : Type} (le : A → A → Bool)
    (htrans : ∀ a b c, le a b = true → le b c = true → le a c = true)
    (htotal : ∀ a b, (le a b || le b a) = true) (a : A) :
    ∀ l : List A, l.Pairwise (fun x y => le x y = true) →
      (insertSorted le a l).Pairwise (fun x y => le x y = true) := by
  intro l
  induction l with
  | nil => intro _; exact List.pairwise_singleton _ _
  | cons b l ih =>
    intro hpw
    have hpw2 := List.pairwise_cons.mp hpw
    unfold insertSorted
    by_cases h : le a b
    · rw [if_pos h]
      rw [List.pairwise_cons]
      refine ⟨?_, hpw⟩
      intro x hx
      rcases List.mem_cons.mp hx with rfl | hx2
      · exact h
      · exact htrans a b x h (hpw2.1 x hx2)
    · rw [if_neg h]
      rw [List.pairwise_cons]
      have hba : le b a = true := by
        have := htotal a b
        rw [Bool.or_eq_true] at this
        rcases this with h1 | h1
        · exact absurd h1 h
        · exact h1
      refine ⟨?_, ih hpw2.2⟩
      intro x hx
      rcases (mem_insertSorted le a x l).mp hx with rfl | hx2
      · exact hba
      · exact hpw2.1 x hx2

theorem pyStableSort_perm {A : Type} (le : A → A → Bool) :
    ∀ l : List A, (pyStableSort le l).Perm l := by
  intro l
  induction l with
  | nil => exact List.Perm.refl _
  | cons a l ih =>
    unfold pyStableSort
    exact (insertSorted_perm le a _).trans (ih.cons a)

theorem pyStableSort_pairwise {A : Type} (le : A → A → Bool)
    (htrans : ∀ a b c, le a b = true → le b c = true → le a c = true)
    (htotal : ∀ a b, (le a b || le b a) = true) :
    ∀ l : List A, (pyStableSort le l).Pairwise (fun x y => le x y = true) := by
  intro l
  induction l with
  | nil => exact List.Pairwise.nil
  | cons a l ih =>
    unfold pyStableSort
    exact insertSorted_pairwise le htrans htotal a _ ih

theorem hexCharVal_hexChar (n : Nat) (h : n < 16) :
    hexCharVal (hexChar n) = n := by
  interval_cases n <;> rfl

theorem hexFold_flatMap (bytes : List Nat) (hb : ∀ b ∈ bytes, b < 256) :
    ∀ init : Nat,
      (bytes.flatMap byteToHex).foldl (fun acc c => 16 * acc + hexCharVal c) init =
        bytes.foldl (fun acc b => 256 * acc + b) init := by
  induction bytes with
  | nil => intro init; rfl
  | cons b rest ih =>
    intro init
    have hblt : b < 256 := hb b (List.mem_cons_self b rest)
    have hrest : ∀ x ∈ rest, x < 256 := fun x hx => hb x (List.mem_cons_of_mem b hx)
    have hdiv : b / 16 < 16 := by omega
    have hmod : b % 16 < 16 := Nat.mod_lt _ (by norm_num)
    simp only [List.flatMap_cons, List.foldl_append, byteToHex, List.foldl_cons,
      List.foldl_nil]
    rw [hexCharVal_hexChar _ hdiv, hexCharVal_hexChar _ hmod, ih hrest]
    have : 16 * (16 * init + b / 16) + b % 16 = 256 * init + b := by omega
    rw [this]

theorem leBytes_lt (n count : Nat) : ∀ b ∈ leBytes n count, b < 256 := by
  intro b hb
  simp only [leBytes, List.mem_map] at hb
  obtain ⟨i, _, rfl⟩ := hb
  exact Nat.mod_lt _ (by norm_num)

theorem md5Digest_bytes_lt (msg : List Nat) :
    ∀ b ∈ md5Digest msg, b < 256 := by
  intro b hb
  unfold md5Digest at hb
  rcases hmatch : md5Chunks (md5Pad msg) (0x67452301, 0xefcdab89, 0x98badcfe, 0x10325476)
    with ⟨a, b2, c, d⟩
  rw [hmatch] at hb
  simp only [List.mem_append] at hb
  rcases hb with ((h | h) | h) | h
  · exact leBytes_lt _ _ _ h
  · exact leBytes_lt _ _ _ h
  · exact leBytes_lt _ _ _ h
  · exact leBytes_lt _ _ _ h

theorem intOfHex_md5Hexdigest (msg : List Nat) :
    intOfHex (md5Hexdigest msg) = md5Nat msg := by
  unfold intOfHex md5Hexdigest md5Nat beNat
  exact hexFold_flatMap (md5Digest msg) (md5Digest_bytes_lt msg) 0

/-- C2: for every path p and shard count N > 0, the shard router returns
the 128-bit MD5 hash of the UTF-8 bytes of p reduced modulo N, and the
result lies in [0, N). Determinism is inherent: the router is embedded as
a pure function of (p, N) alone, matching the source, which feeds only
file_path.encode(utf-8) into hashlib.md5 and reduces modulo db_count. -/
theorem shard_router_spec (p : String) (N : Nat) (hN : 0 < N) :
    get_db_index_for_file p N = md5Nat (utf8Bytes p) % N ∧
    get_db_index_for_file p N < N := by
  constructor
  · unfold get_db_index_for_file
    rw [intOfHex_md5Hexdigest]
  · exact Nat.mod_lt _ hN

set_option maxRecDepth 10000 in
/-- Witness for C2 at the concrete path of the specification's shard
routing scenario and N = 4 (the value 2 agrees with the reference MD5). -/
theorem shard_router_spec_witness :
    0 < 4 ∧
    (get_db_index_for_file "/x/y/z.txt" 4 = md5Nat (utf8Bytes "/x/y/z.txt") % 4 ∧
     get_db_index_for_file "/x/y/z.txt" 4 < 4) ∧
    get_db_index_for_file "/x/y/z.txt" 4 = 2 :=
  ⟨by decide, shard_router_spec "/x/y/z.txt" 4 (by decide), by decide⟩

set_option maxRecDepth 10000 in
/-- Validation of the MD5 embedding against the RFC 1321 test value for the
empty message. -/
theorem md5Hexdigest_empty :
    md5Hexdigest [] = "d41d8cd98f00b204e9800998ecf8427e" := by decide

set_option maxRecDepth 10000 in
/-- Validation of the MD5 embedding and the UTF-8 encoder against the
RFC 1321 test value for the message abc. -/
theorem md5Hexdigest_abc :
    md5Hexdigest (utf8Bytes "abc") = "900150983cd24fb0d6963f7d28e17f72" := by decide

/-- C9: a query that is empty or strips to whitespace returns the empty
result list from the search entry point, for every immediate-, hot- and
complete-layer search function; no tier can influence the result. -/
theorem ultra_fast_search_blank_query (imm hot : String → List Row)
    (comp : String → Nat → List Row) (query : String) (max_results : Nat)
    (h : query = "" ∨ pyStrip query = "") :
    ultra_fast_search imm hot comp query max_results = [] := by
  unfold ultra_fast_search
  rw [if_pos h]

/-- Witness for C9: a whitespace query against tiers that would all report
a hit still yields the empty result. -/
theorem ultra_fast_search_blank_query_witness :
    ((" 	 " : String) = "" ∨ pyStrip " 	 " = "") ∧
    ultra_fast_search (fun _ => [⟨"/a", "immediate", 1⟩])
      (fun _ => [⟨"/a", "hot", 1⟩]) (fun _ _ => [⟨"/a", "complete_db_0", 1⟩])
      " 	 " 10 = [] :=
  ⟨Or.inr (by decide),
   ultra_fast_search_blank_query _ _ _ _ _ (Or.inr (by decide))⟩

/-- C4 (code bug): CacheManager.shutdown sets shutdown_requested before
calling save_caches, and save_caches returns immediately when that flag is
set, so the final synchronous save never happens: starting from a state
with a hot entry and no file on disk, shutdown completes zero saves and
writes nothing, leaving the hot entry unpersisted. The monolith shutdown
path (_save_caches_sync, which ignores the flag) does write the hot map,
matching the specified intent. -/
theorem cm_shutdown_skips_final_save :
    (cm_shutdown ⟨[("/a.txt", 5)], false, none, 0⟩).saveCount = 0 ∧
    (cm_shutdown ⟨[("/a.txt", 5)], false, none, 0⟩).savedHot = none ∧
    (cm_shutdown ⟨[("/a.txt", 5)], false, none, 0⟩).hot = [("/a.txt", 5)] ∧
    (app_shutdown ⟨[("/a.txt", 5)], false, none, 0⟩).savedHot =
      some [("/a.txt", 5)] := by decide

/-- C6 (code bug): the size gate of live_progressive_index_file uses a
strict comparison (size > 500 * 1024 * 1024) although its own comment and
the specification say files of 500 MiB and above are rejected. A file of
exactly 500 MiB is therefore not rejected: it is indexed name-only with
the base name as content and stored in the immediate tier, and the call
returns success; one byte more is rejected with nothing stored. -/
theorem index_file_500MiB_boundary_not_rejected :
    (live_progressive_index_file (fun _ => "body text") false true 150000 0
      (500 * 1024 * 1024) "/docs/report.pdf" emptyCacheState).returned = true ∧
    (live_progressive_index_file (fun _ => "body text") false true 150000 0
      (500 * 1024 * 1024) "/docs/report.pdf" emptyCacheState).indexedContent =
      some "report.pdf" ∧
    memKey (live_progressive_index_file (fun _ => "body text") false true 150000 0
      (500 * 1024 * 1024) "/docs/report.pdf" emptyCacheState).state.immediate
      "/docs/report.pdf" = true ∧
    live_progressive_index_file (fun _ => "body text") false true 150000 0
      (500 * 1024 * 1024 + 1) "/docs/report.pdf" emptyCacheState =
      ⟨false, none, emptyCacheState⟩ := by decide

/-- C8 (counterexample): when the first write transaction of the durable
upsert add_document_to_db raises an integrity (constraint) violation, the
upsert performs zero repair deletions and zero retries, not the one repair
attempt the claim describes: it falls into the generic exception handler
and returns False after the single attempt. -/
theorem upsert_integrity_no_repair_counterexample :
    add_document_to_db
      (fun _ => .integrityError "UNIQUE constraint failed: documents.file_path") =
      ⟨false, false, 0, 1⟩ ∧
    ¬((add_document_to_db
      (fun _ => .integrityError "UNIQUE constraint failed: documents.file_path")).repairDeletes
        = 1) := by decide

/-- C8 (amended): when the durable upsert add_document_to_db hits a
constraint violation on its first attempt it makes no repair attempt and
no retry: the error is logged, the loop ends after that single write
attempt, and the upsert reports failure through its boolean return value
rather than raising. -/
theorem upsert_integrity_violation_behavior (outcomes : Nat → SqlOutcome)
    (msg : String) (h : outcomes 0 = .integrityError msg) :
    add_document_to_db outcomes = ⟨false, false, 0, 1⟩ := by
  unfold add_document_to_db addDocLoop
  rw [h]

/-- Witness for the amended C8 at a concrete outcome schedule. -/
theorem upsert_integrity_violation_behavior_witness :
    (fun _ : Nat => SqlOutcome.integrityError "constraint failed") 0 =
      SqlOutcome.integrityError "constraint failed" ∧
    add_document_to_db (fun _ => SqlOutcome.integrityError "constraint failed") =
      ⟨false, false, 0, 1⟩ :=
  ⟨rfl, upsert_integrity_violation_behavior _ "constraint failed" rfl⟩

theorem pyTake_length_le (n : Nat) (s : String) : (pyTake n s).length ≤ n := by
  simp only [pyTake, String.length]
  exact le_trans (Nat.le_of_eq (List.length_take n s.data)) (Nat.min_le_left n s.data.length)

theorem removeNul_length_le (s : String) : (removeNul s).length ≤ s.length := by
  simp only [removeNul, String.length]
  exact List.length_filter_le _ _

theorem noNulB_removeNul (s : String) : noNulB (removeNul s) = true := by
  simp only [noNulB, removeNul, List.all_eq_true]
  intro c hc
  exact (List.mem_filter.mp hc).2

set_option maxRecDepth 4000 in
/-- C10 (counterexample): with an empty supplied file_name, the upsert
falls back to the untruncated base name of the path, so a separator-free
path of 501 characters produces a stored file_name of length 501,
violating the claimed 500-character bound. -/
theorem upsert_row_file_name_overflow_counterexample :
    (upsertInsertRow "x" "" ".txt" (String.mk (List.replicate 501 'a'))).file_name.length
      = 501 ∧
    ¬((upsertInsertRow "x" "" ".txt"
        (String.mk (List.replicate 501 'a'))).file_name.length ≤ 500) := by decide

/-- C10 (amended): every document row bound by the durable upsert, on both
the insert and the update path (which bind identical sanitized values),
has content truncated to at most 2,000,000 characters with no NUL
characters, a NUL-free file_name that is at most 500 characters whenever
the supplied file_name is non-empty (an empty file_name falls back to the
untruncated base name of the path), and a file_type of at most 100
characters. -/
theorem upsert_rows_sanitized (content file_name file_type file_path : String) :
    upsertUpdateRow content file_name file_type file_path =
      upsertInsertRow content file_name file_type file_path ∧
    (upsertInsertRow content file_name file_type file_path).content.length ≤ 2000000 ∧
    noNulB (upsertInsertRow content file_name file_type file_path).content = true ∧
    noNulB (upsertInsertRow content file_name file_type file_path).file_name = true ∧
    (file_name ≠ "" →
      (upsertInsertRow content file_name file_type file_path).file_name.length ≤ 500) ∧
    (upsertInsertRow content file_name file_type file_path).file_type.length ≤ 100 := by
  refine ⟨rfl, ?_, ?_, ?_, ?_, ?_⟩
  · simp only [upsertInsertRow, sanitize_document_fields]
    by_cases hc : content = ""
    · simp [hc]
      calc (removeNul "").length ≤ ("" : String).length := removeNul_length_le ""
        _ ≤ 2000000 := by decide
    · simp only [if_neg hc]
      calc (removeNul (pyTake 2000000 content)).length
          ≤ (pyTake 2000000 content).length := removeNul_length_le _
        _ ≤ 2000000 := pyTake_length_le _ _
  · simp only [upsertInsertRow, sanitize_document_fields]
    exact noNulB_removeNul _
  · simp only [upsertInsertRow, sanitize_document_fields]
    exact noNulB_removeNul _
  · intro hn
    simp only [upsertInsertRow, sanitize_document_fields, if_neg hn]
    calc (removeNul (pyTake 500 file_name)).length
        ≤ (pyTake 500 file_name).length := removeNul_length_le _
      _ ≤ 500 := pyTake_length_le _ _
  · simp only [upsertInsertRow, sanitize_document_fields]
    by_cases ht : file_type = ""
    · simp only [ht, if_pos]
      decide
    · simp only [if_neg ht]
      exact pyTake_length_le _ _

/-- Witness for the amended C10 at a concrete document. -/
theorem upsert_rows_sanitized_witness :
    ("name.txt" : String) ≠ "" ∧
    (upsertInsertRow "hello" "name.txt" ".txt" "/d/name.txt").file_name.length ≤ 500 :=
  ⟨by decide,
   (upsert_rows_sanitized "hello" "name.txt" ".txt" "/d/name.txt").2.2.2.2.1 (by decide)⟩

theorem memKey_eraseKey (l : List (String × Nat)) (k : String) :
    memKey (eraseKey l k) k = false := by
  unfold memKey eraseKey
  rw [Bool.eq_false_iff]
  intro h
  rw [List.any_eq_true] at h
  obtain ⟨kv, hkv, hbeq⟩ := h
  have h1 := (List.mem_filter.mp hkv).2
  rw [bne_iff_ne] at h1
  exact h1 (beq_iff_eq.mp hbeq)

theorem memKey_insertKey (l : List (String × Nat)) (k : String) (v : Nat) :
    memKey (insertKey l k v) k = true := by
  unfold insertKey
  by_cases hm : memKey l k
  · rw [if_pos hm]
    unfold memKey at hm ⊢
    rw [List.any_eq_true] at hm ⊢
    obtain ⟨kv, hkv, hbeq⟩ := hm
    refine ⟨(k, v), List.mem_map.mpr ⟨kv, hkv, ?_⟩, by simp⟩
    rw [if_pos hbeq]
  · rw [if_neg hm]
    unfold memKey
    rw [List.any_eq_true]
    exact ⟨(k, v), List.mem_append_right _ (List.mem_singleton.mpr rfl), by simp⟩

/-- C3 (counterexample): the state reached from empty tiers by indexing a
path, promoting it to the hot tier, and indexing the same path again (the
re-index-while-hot scenario) holds the path in both the immediate and the
hot tier at once, refuting the at-most-one-tier invariant as claimed. -/
theorem cache_reindex_both_tiers_counterexample :
    memKey (runCacheOps 150000 1500000 emptyCacheState
      [.indexFile 0 100 "/a.txt" "hello", .moveToHot 1 "/a.txt",
       .indexFile 2 100 "/a.txt" "hello"]).immediate "/a.txt" = true ∧
    memKey (runCacheOps 150000 1500000 emptyCacheState
      [.indexFile 0 100 "/a.txt" "hello", .moveToHot 1 "/a.txt",
       .indexFile 2 100 "/a.txt" "hello"]).hot "/a.txt" = true := by decide

/-- C3 (amended): every promotion deletes the path from its source tier
before inserting it into the destination tier, so immediately after a
promotion the promoted path sits in at most one of the immediate and hot
tiers: after a move to hot the path is gone from immediate (the immediate
map is exactly the erasure) and present in hot when no capacity eviction
fires, and after a move to complete the path is gone from hot and present
in the durable layer. Re-indexing a path that sits in the hot tier,
however, leaves it in both tiers until its promotion timer fires (see the
counterexample). -/
theorem promotion_removes_from_source (max_hot now : Nat) (p : String)
    (st : CacheState)
    (hcap : (insertKey st.hot p ((lookupKey st.immediate p).getD now)).length ≤ max_hot) :
    (move_to_hot_layer max_hot now p st).immediate = eraseKey st.immediate p ∧
    memKey (move_to_hot_layer max_hot now p st).immediate p = false ∧
    memKey (move_to_hot_layer max_hot now p st).hot p = true ∧
    (move_to_complete_layer p st).hot = eraseKey st.hot p ∧
    memKey (move_to_complete_layer p st).hot p = false ∧
    p ∈ (move_to_complete_layer p st).complete := by
  refine ⟨rfl, memKey_eraseKey _ _, ?_, rfl, memKey_eraseKey _ _, ?_⟩
  · show memKey (hotCacheInsert max_hot st.hot p _) p = true
    unfold hotCacheInsert
    rw [if_neg (by omega)]
    exact memKey_insertKey _ _ _
  · show p ∈ (if st.complete.contains p then st.complete else st.complete ++ [p])
    by_cases hc : st.complete.contains p
    · rw [if_pos hc]
      exact List.elem_iff.mp hc
    · rw [if_neg hc]
      exact List.mem_append_right _ (List.mem_singleton.mpr rfl)

/-- Witness for the amended C3 at a concrete one-entry state. -/
theorem promotion_removes_from_source_witness :
    (insertKey ([] : List (String × Nat)) "/a.txt"
      ((lookupKey [("/a.txt", 0)] "/a.txt").getD 1)).length ≤ 10 ∧
    ((move_to_hot_layer 10 1 "/a.txt" ⟨[("/a.txt", 0)], [], []⟩).immediate =
        eraseKey [("/a.txt", 0)] "/a.txt" ∧
      memKey (move_to_hot_layer 10 1 "/a.txt" ⟨[("/a.txt", 0)], [], []⟩).immediate
        "/a.txt" = false ∧
      memKey (move_to_hot_layer 10 1 "/a.txt" ⟨[("/a.txt", 0)], [], []⟩).hot
        "/a.txt" = true ∧
      (move_to_complete_layer "/a.txt" ⟨[("/a.txt", 0)], [], []⟩).hot =
        eraseKey [] "/a.txt" ∧
      memKey (move_to_complete_layer "/a.txt" ⟨[("/a.txt", 0)], [], []⟩).hot
        "/a.txt" = false ∧
      "/a.txt" ∈ (move_to_complete_layer "/a.txt" ⟨[("/a.txt", 0)], [], []⟩).complete) :=
  ⟨by decide, promotion_removes_from_source 10 1 "/a.txt" ⟨[("/a.txt", 0)], [], []⟩
    (by decide)⟩

theorem uniquePatternsGo_append (text : String) :
    ∀ l acc : List String, ∃ ex, uniquePatternsGo text acc l = acc ++ ex := by
  intro l
  induction l with
  | nil => intro acc; exact ⟨[], by simp [uniquePatternsGo]⟩
  | cons p rest ih =>
    intro acc
    unfold uniquePatternsGo
    by_cases h : p ∈ acc ∨ p = text
    · rw [if_pos h]; exact ih acc
    · rw [if_neg h]
      obtain ⟨ex, hex⟩ := ih (acc ++ [p])
      exact ⟨[p] ++ ex, by rw [hex, List.append_assoc]⟩

theorem uniquePatternsGo_nodup (text : String) :
    ∀ l acc : List String, acc.Nodup → (uniquePatternsGo text acc l).Nodup := by
  intro l
  induction l with
  | nil => intro acc h; simpa [uniquePatternsGo] using h
  | cons p rest ih =>
    intro acc h
    unfold uniquePatternsGo
    by_cases hc : p ∈ acc ∨ p = text
    · rw [if_pos hc]; exact ih acc h
    · rw [if_neg hc]
      refine ih (acc ++ [p]) ?_
      rw [List.nodup_append]
      refine ⟨h, List.nodup_singleton p, ?_⟩
      intro x hx hx1
      rw [List.mem_singleton] at hx1
      subst hx1
      exact (not_or.mp hc).1 hx

theorem lenDescLE_trans (a b c : String) (h1 : lenDescLE a b = true)
    (h2 : lenDescLE b c = true) : lenDescLE a c = true := by
  unfold lenDescLE at h1 h2 ⊢
  rw [decide_eq_true_eq] at h1 h2 ⊢
  omega

theorem lenDescLE_total (a b : String) : (lenDescLE a b || lenDescLE b a) = true := by
  unfold lenDescLE
  rcases Nat.le_total a.length b.length with h | h
  · rw [Bool.or_eq_true]
    exact Or.inr (decide_eq_true h)
  · rw [Bool.or_eq_true]
    exact Or.inl (decide_eq_true h)

theorem finalPatterns_shape (q : String) (ps : List String) :
    ((uniquePatternsGo q [q] ps).headD q ::
        pyStableSort lenDescLE (uniquePatternsGo q [q] ps).tail).head? = some q ∧
    q ∈ ((uniquePatternsGo q [q] ps).headD q ::
        pyStableSort lenDescLE (uniquePatternsGo q [q] ps).tail) ∧
    List.Pairwise (fun a b : String => b.length ≤ a.length)
      ((uniquePatternsGo q [q] ps).headD q ::
        pyStableSort lenDescLE (uniquePatternsGo q [q] ps).tail).tail ∧
    ((uniquePatternsGo q [q] ps).headD q ::
        pyStableSort lenDescLE (uniquePatternsGo q [q] ps).tail).Nodup := by
  obtain ⟨ex, hex⟩ := uniquePatternsGo_append q ps [q]
  have hnd : (uniquePatternsGo q [q] ps).Nodup :=
    uniquePatternsGo_nodup q ps [q] (List.nodup_singleton q)
  rw [hex] at hnd ⊢
  simp only [List.singleton_append, List.headD_cons, List.tail_cons]
  have hperm : (pyStableSort lenDescLE ex).Perm ex := pyStableSort_perm lenDescLE ex
  have hqex : q ∉ ex := (List.nodup_cons.mp hnd).1
  have hexnd : ex.Nodup := (List.nodup_cons.mp hnd).2
  refine ⟨rfl, List.mem_cons_self _ _, ?_, ?_⟩
  · have hsorted := pyStableSort_pairwise lenDescLE
      (fun a b c => lenDescLE_trans a b c) (fun a b => lenDescLE_total a b) ex
    refine hsorted.imp ?_
    intro a b hab
    unfold lenDescLE at hab
    exact decide_eq_true_eq.mp hab
  · rw [List.nodup_cons]
    exact ⟨fun hmem => hqex (hperm.mem_iff.mp hmem), hperm.nodup_iff.mpr hexnd⟩

/-- C7: for every non-empty query q (and every NFKC and lowercasing
function), the pattern list of normalize_search_text_ultra has q as its
first element (hence contains q), its remaining elements are sorted by
non-increasing length, and it contains no duplicates. Determinism is
inherent: the normalizer is embedded as a pure function of its inputs,
matching the source, whose output depends on the query text alone. -/
theorem normalize_patterns_shape (nfkc lower : String → String) (q : String)
    (hq : q ≠ "") :
    (normalize_search_text_ultra nfkc lower q).2.2.2.head? = some q ∧
    q ∈ (normalize_search_text_ultra nfkc lower q).2.2.2 ∧
    List.Pairwise (fun a b : String => b.length ≤ a.length)
      (normalize_search_text_ultra nfkc lower q).2.2.2.tail ∧
    (normalize_search_text_ultra nfkc lower q).2.2.2.Nodup := by
  unfold normalize_search_text_ultra
  rw [if_neg hq]
  exact finalPatterns_shape q _

/-- Witness for C7 at the two-character query ab with identity folds. -/
theorem normalize_patterns_shape_witness :
    (normalize_search_text_ultra id id "ab").2.2.2.head? = some "ab" ∧
    "ab" ∈ (normalize_search_text_ultra id id "ab").2.2.2 ∧
    List.Pairwise (fun a b : String => b.length ≤ a.length)
      (normalize_search_text_ultra id id "ab").2.2.2.tail ∧
    (normalize_search_text_ultra id id "ab").2.2.2.Nodup :=
  normalize_patterns_shape id id "ab" (by decide)

theorem pyStrip_length_le (s : String) : (pyStrip s).length ≤ s.length := by
  simp only [pyStrip, String.length, List.length_reverse]
  calc ((s.data.dropWhile pyIsSpace).reverse.dropWhile pyIsSpace).length
      ≤ (s.data.dropWhile pyIsSpace).reverse.length :=
        (List.dropWhile_sublist pyIsSpace).length_le
    _ = (s.data.dropWhile pyIsSpace).length := List.length_reverse _
    _ ≤ s.data.length := (List.dropWhile_sublist pyIsSpace).length_le

theorem variantGateAndMatch_sound (q0 pv tv : String)
    (h : variantGateAndMatch q0 pv tv = true) :
    (4 ≤ q0.length → 3 ≤ (pyStrip pv).length ∧ 3 ≤ pv.length) ∧
    (2 ≤ q0.length → q0.length ≤ 3 → 2 ≤ (pyStrip pv).length ∧ 2 ≤ pv.length) ∧
    (pv = tv ∨ strIn pv tv = true) := by
  unfold variantGateAndMatch at h
  by_cases h1 : 3 ≤ q0.length ∧ (pyStrip pv).length < 3
  · rw [if_pos h1] at h; exact absurd h (by simp)
  · rw [if_neg h1] at h
    by_cases h2 : q0.length = 2 ∧ (pyStrip pv).length < 2
    · rw [if_pos h2] at h; exact absurd h (by simp)
    · rw [if_neg h2] at h
      by_cases h3 : q0.length = 1 ∧ (pyStrip pv).length < 1
      · rw [if_pos h3] at h; exact absurd h (by simp)
      · rw [if_neg h3] at h
        have hstrip := pyStrip_length_le pv
        refine ⟨fun h4 => by omega, fun ha hb => by omega, ?_⟩
        by_cases h4 : pv = tv
        · exact Or.inl h4
        · rw [if_neg h4] at h
          by_cases h5 : 4 ≤ q0.length
          · rw [if_pos h5] at h
            rw [Bool.and_eq_true] at h
            exact Or.inr h.2
          · rw [if_neg h5] at h
            by_cases h6 : 2 ≤ pv.length
            · rw [if_pos h6] at h; exact Or.inr h
            · rw [if_neg h6] at h; exact absurd h (by simp)

/-- C5: soundness of the tiered strictness rule of enhanced_search_match,
for every NFKC and lowercasing function. Whenever the matcher reports a
match, some pattern of the set has a folded variant pv that is equal to or
a substring of a folded variant of the text, where the text and pattern
variants are built by the same folding chain (original, lowered, NFKC of
lowered, hiragana-to-katakana, katakana-to-hiragana), and pv obeys the
strictness tiers keyed on the original query (the first pattern): length
at least 3 (even after stripping) when the query length is at least 4, and
length at least 2 when the query length is 2 or 3; a length-1 query is
unrestricted. The source gates each comparison on the whitespace-stripped
folded variant, which these bounds reflect. -/
theorem enhanced_search_match_strictness (nfkc lower : String → String)
    (text q0 : String) (qs : List String)
    (h : enhanced_search_match nfkc lower text (q0 :: qs) = true) :
    ∃ p ∈ q0 :: qs, ∃ pv ∈ foldVariants nfkc lower p,
      ∃ tv ∈ foldVariants nfkc lower text,
        (4 ≤ q0.length → 3 ≤ (pyStrip pv).length ∧ 3 ≤ pv.length) ∧
        (2 ≤ q0.length → q0.length ≤ 3 → 2 ≤ (pyStrip pv).length ∧ 2 ≤ pv.length) ∧
        (pv = tv ∨ strIn pv tv = true) := by
  unfold enhanced_search_match at h
  by_cases h0 : text = "" ∨ (q0 :: qs) = ([] : List String)
  · rw [if_pos h0] at h; exact absurd h (by simp)
  · rw [if_neg h0] at h
    simp only [List.headD_cons] at h
    rw [List.any_eq_true] at h
    obtain ⟨p, hp, hrest⟩ := h
    rw [List.any_eq_true] at hrest
    obtain ⟨tv, htv, hrest2⟩ := hrest
    rw [List.any_eq_true] at hrest2
    obtain ⟨pv, hpv, hmatch⟩ := hrest2
    exact ⟨p, hp, pv, hpv, tv, htv, variantGateAndMatch_sound q0 pv tv hmatch⟩

/-- Witness for C5: the query ab matching the text abc through a substring
occurrence of a length-2 pattern variant. -/
theorem enhanced_search_match_strictness_witness :
    enhanced_search_match id id "abc" ["ab"] = true ∧
    (∃ p ∈ ("ab" :: ([] : List String)), ∃ pv ∈ foldVariants id id p,
      ∃ tv ∈ foldVariants id id "abc",
        (4 ≤ ("ab" : String).length → 3 ≤ (pyStrip pv).length ∧ 3 ≤ pv.length) ∧
        (2 ≤ ("ab" : String).length → ("ab" : String).length ≤ 3 →
          2 ≤ (pyStrip pv).length ∧ 2 ≤ pv.length) ∧
        (pv = tv ∨ strIn pv tv = true)) :=
  ⟨by decide, enhanced_search_match_strictness id id "abc" "ab" [] (by decide)⟩

theorem keyLE_iff (x y : Nat × Rat) : keyLE x y = true ↔ keyLEP x y := by
  unfold keyLE keyLEP
  rw [Bool.or_eq_true, Bool.and_eq_true, decide_eq_true_eq, decide_eq_true_eq,
    decide_eq_true_eq]

theorem keyLE_refl (x : Nat × Rat) : keyLE x x = true := by
  rw [keyLE_iff]
  exact Or.inr ⟨rfl, le_refl _⟩

theorem keyLE_trans (x y z : Nat × Rat) (h1 : keyLE x y = true)
    (h2 : keyLE y z = true) : keyLE x z = true := by
  rw [keyLE_iff] at h1 h2 ⊢
  rcases h1 with h1 | ⟨h1e, h1r⟩ <;> rcases h2 with h2 | ⟨h2e, h2r⟩
  · exact Or.inl (lt_trans h1 h2)
  · exact Or.inl (by rw [← h2e]; exact h1)
  · exact Or.inl (by rw [h1e]; exact h2)
  · exact Or.inr ⟨h1e.trans h2e, le_trans h1r h2r⟩

theorem keyLE_total (x y : Nat × Rat) : (keyLE x y || keyLE y x) = true := by
  rw [Bool.or_eq_true, keyLE_iff, keyLE_iff]
  unfold keyLEP
  rcases lt_trichotomy x.1 y.1 with h | h | h
  · exact Or.inl (Or.inl h)
  · rcases le_total x.2 y.2 with hr | hr
    · exact Or.inl (Or.inr ⟨h, hr⟩)
    · exact Or.inr (Or.inr ⟨h.symm, hr⟩)
  · exact Or.inr (Or.inl h)

theorem rowSortLE_trans (a b c : Row) (h1 : rowSortLE a b = true)
    (h2 : rowSortLE b c = true) : rowSortLE a c = true :=
  keyLE_trans _ _ _ h2 h1

theorem rowSortLE_total (a b : Row) : (rowSortLE a b || rowSortLE b a) = true :=
  keyLE_total (get_priority b) (get_priority a)

theorem dedupByPathGo_sublist (seen : List String) (l : List Row) :
    (dedupByPathGo seen l).Sublist l := by
  induction l generalizing seen with
  | nil => exact List.Sublist.refl _
  | cons r rest ih =>
    unfold dedupByPathGo
    by_cases h : r.file_path ∈ seen
    · rw [if_pos h]
      exact (ih seen).cons r
    · rw [if_neg h]
      exact (ih _).cons₂ r

theorem dedupByPathGo_notin_seen (l : List Row) :
    ∀ seen, ∀ r ∈ dedupByPathGo seen l, r.file_path ∉ seen := by
  induction l with
  | nil => intro seen r hr; simp [dedupByPathGo] at hr
  | cons x rest ih =>
    intro seen r hr
    unfold dedupByPathGo at hr
    by_cases h : x.file_path ∈ seen
    · rw [if_pos h] at hr
      exact ih seen r hr
    · rw [if_neg h] at hr
      rcases List.mem_cons.mp hr with rfl | hr2
      · exact h
      · intro hseen
        exact ih _ r hr2 (List.mem_cons_of_mem _ hseen)

theorem dedupByPathGo_pairwise_ne (l : List Row) :
    ∀ seen, (dedupByPathGo seen l).Pairwise
      (fun a b => a.file_path ≠ b.file_path) := by
  induction l with
  | nil => intro seen; simp [dedupByPathGo]
  | cons x rest ih =>
    intro seen
    unfold dedupByPathGo
    by_cases h : x.file_path ∈ seen
    · rw [if_pos h]
      exact ih seen
    · rw [if_neg h]
      rw [List.pairwise_cons]
      refine ⟨?_, ih _⟩
      intro b hb heq
      exact dedupByPathGo_notin_seen rest _ b hb (List.mem_cons.mpr (Or.inl heq.symm))

theorem dedupByPathGo_keeps_max (l : List Row) :
    ∀ seen, l.Pairwise (fun a b => rowSortLE a b = true) →
      ∀ r ∈ l, r.file_path ∉ seen →
        ∃ k ∈ dedupByPathGo seen l, k.file_path = r.file_path ∧
          keyLE (get_priority r) (get_priority k) = true := by
  induction l with
  | nil => intro seen _ r hr; simp at hr
  | cons x rest ih =>
    intro seen hpw r hr hnotin
    have hpw2 := List.pairwise_cons.mp hpw
    unfold dedupByPathGo
    by_cases h : x.file_path ∈ seen
    · rw [if_pos h]
      rcases List.mem_cons.mp hr with rfl | hr2
      · exact absurd h hnotin
      · exact ih seen hpw2.2 r hr2 hnotin
    · rw [if_neg h]
      rcases List.mem_cons.mp hr with rfl | hr2
      · exact ⟨r, List.mem_cons_self _ _, rfl, keyLE_refl _⟩
      · by_cases hpath : r.file_path = x.file_path
        · exact ⟨x, List.mem_cons_self _ _, hpath.symm, hpw2.1 r hr2⟩
        · have hnotin2 : r.file_path ∉ x.file_path :: seen := by
            intro hmem
            rcases List.mem_cons.mp hmem with h1 | h1
            · exact hpath h1
            · exact hnotin h1
          obtain ⟨k, hk, hkp, hkle⟩ := ih (x.file_path :: seen) hpw2.2 r hr2 hnotin2
          exact ⟨k, List.mem_cons_of_mem _ hk, hkp, hkle⟩

theorem pairwise_ne_unique_path : ∀ out : List Row,
    (out.Pairwise fun a b => a.file_path ≠ b.file_path) →
    ∀ k1 ∈ out, ∀ k2 ∈ out, k1.file_path = k2.file_path → k1 = k2 := by
  intro out
  induction out with
  | nil => intro _ k1 h; simp at h
  | cons x rest ih =>
    intro hpw k1 hk1 k2 hk2 hpath
    have hpw2 := List.pairwise_cons.mp hpw
    rcases List.mem_cons.mp hk1 with rfl | h1 <;> rcases List.mem_cons.mp hk2 with rfl | h2
    · rfl
    · exact absurd hpath (hpw2.1 k2 h2)
    · exact absurd hpath.symm (hpw2.1 k1 h1)
    · exact ih hpw2.2 k1 h1 k2 h2 hpath

theorem layer_base_complete (s : String) :
    layer_base ("complete_db_" ++ s) = "complete" := by
  unfold layer_base
  rw [String.data_append]
  rfl

theorem layer_priority_complete (s : String) :
    layer_priority ("complete_db_" ++ s) = 1000 := by
  unfold layer_priority
  rw [layer_base_complete]
  rfl

theorem spec_tier_priority_complete (s : String) :
    spec_tier_priority ("complete_db_" ++ s) = 1000 := by
  unfold spec_tier_priority
  have h : hasPrefixCL "complete".data ("complete_db_" ++ s).data = true := by
    rw [String.data_append]
    rfl
  rw [if_pos h]

theorem priority_agrees (layer : String)
    (h : layer = "immediate" ∨ layer = "hot" ∨ ∃ s, layer = "complete_db_" ++ s) :
    layer_priority layer = spec_tier_priority layer := by
  rcases h with rfl | rfl | ⟨s, rfl⟩
  · decide
  · decide
  · rw [layer_priority_complete, spec_tier_priority_complete]

theorem get_priority_eq_spec (r : Row)
    (h : r.layer = "immediate" ∨ r.layer = "hot" ∨ ∃ s, r.layer = "complete_db_" ++ s) :
    get_priority r = spec_key r := by
  unfold get_priority spec_key
  rw [priority_agrees r.layer h]

/-- C1: for every row list whose layer labels come from the tiers
(immediate, hot, or a complete_db shard label, optionally suffixed as in
the source), the dedup-and-rank step returns a list drawn from its input
in which file paths are pairwise distinct (at most one entry per path),
which is sorted by coarse tier priority (complete 1000, immediate 100,
hot 10, anything else lower) descending and then by relevance score
descending, in which every input path is represented, and in which the
entry kept for a path carries the highest tier priority among that path's
input entries. -/
theorem dedup_and_rank_correct (results : List Row)
    (hlayers : ∀ r ∈ results, r.layer = "immediate" ∨ r.layer = "hot" ∨
      ∃ s, r.layer = "complete_db_" ++ s) :
    (deduplicate_and_rank_optimized results).Pairwise
      (fun a b => a.file_path ≠ b.file_path) ∧
    (deduplicate_and_rank_optimized results).Pairwise
      (fun a b => keyLEP (spec_key b) (spec_key a)) ∧
    (∀ k ∈ deduplicate_and_rank_optimized results, k ∈ results) ∧
    (∀ r ∈ results, ∃ k ∈ deduplicate_and_rank_optimized results,
      k.file_path = r.file_path ∧
      spec_tier_priority r.layer ≤ spec_tier_priority k.layer) ∧
    (∀ k ∈ deduplicate_and_rank_optimized results, ∀ r ∈ results,
      r.file_path = k.file_path →
      spec_tier_priority r.layer ≤ spec_tier_priority k.layer) := by
  by_cases hemp : results = []
  · subst hemp
    refine ⟨?_, ?_, ?_, ?_, ?_⟩ <;> simp [deduplicate_and_rank_optimized]
  · unfold deduplicate_and_rank_optimized
    rw [if_neg hemp]
    have hperm : (pyStableSort rowSortLE results).Perm results :=
      pyStableSort_perm rowSortLE results
    have hsorted : (pyStableSort rowSortLE results).Pairwise
        (fun a b => rowSortLE a b = true) :=
      pyStableSort_pairwise rowSortLE rowSortLE_trans rowSortLE_total results
    have hsub := dedupByPathGo_sublist [] (pyStableSort rowSortLE results)
    have hmemres : ∀ x ∈ dedupByPathGo [] (pyStableSort rowSortLE results),
        x ∈ results := fun x hx => hperm.mem_iff.mp (hsub.mem hx)
    have hout_pairwise := dedupByPathGo_pairwise_ne (pyStableSort rowSortLE results) []
    have hmax : ∀ r ∈ results,
        ∃ k ∈ dedupByPathGo [] (pyStableSort rowSortLE results),
          k.file_path = r.file_path ∧
          spec_tier_priority r.layer ≤ spec_tier_priority k.layer := by
      intro r hr
      have hrS : r ∈ pyStableSort rowSortLE results := hperm.mem_iff.mpr hr
      obtain ⟨k, hk, hkp, hkle⟩ :=
        dedupByPathGo_keeps_max (pyStableSort rowSortLE results) [] hsorted r hrS
          (by simp)
      refine ⟨k, hk, hkp, ?_⟩
      have hK := get_priority_eq_spec k (hlayers k (hmemres k hk))
      have hR := get_priority_eq_spec r (hlayers r hr)
      have hle := (keyLE_iff _ _).mp hkle
      rw [hR, hK] at hle
      rcases hle with h | ⟨h, _⟩
      · exact le_of_lt h
      · exact le_of_eq h
    refine ⟨hout_pairwise, ?_, hmemres, hmax, ?_⟩
    · have hps := List.Pairwise.sublist hsub hsorted
      refine List.Pairwise.imp_of_mem ?_ hps
      intro a b ha hb hab
      have hA := get_priority_eq_spec a (hlayers a (hmemres a ha))
      have hB := get_priority_eq_spec b (hlayers b (hmemres b hb))
      have hle := (keyLE_iff _ _).mp hab
      rw [hA, hB] at hle
      exact hle
    · intro k hk r hr hpath
      obtain ⟨k2, hk2, hk2p, hk2le⟩ := hmax r hr
      have hk2k : k2 = k :=
        pairwise_ne_unique_path _ hout_pairwise k2 hk2 k hk (by rw [hk2p, hpath])
      rw [← hk2k]
      exact hk2le

/-- Witness for C1: three rows with a duplicated path across the hot and
complete tiers; the kept entry for the duplicated path is the
complete-tier one, and the output is sorted and duplicate-free. -/
theorem dedup_and_rank_correct_witness :
    deduplicate_and_rank_optimized
      [Row.mk "/a" "hot" 5, Row.mk "/a" "complete_db_0" 1,
       Row.mk "/b" "immediate" 2] =
      [Row.mk "/a" "complete_db_0" 1, Row.mk "/b" "immediate" 2] ∧
    (deduplicate_and_rank_optimized
      [Row.mk "/a" "hot" 5, Row.mk "/a" "complete_db_0" 1,
       Row.mk "/b" "immediate" 2]).Pairwise
      (fun a b => a.file_path ≠ b.file_path) := by
  constructor
  · decide
  · refine (dedup_and_rank_correct _ ?_).1
    intro r hr
    fin_cases hr
    · exact Or.inr (Or.inl rfl)
    · exact Or.inr (Or.inr ⟨"0", by decide⟩)
    · exact Or.inl rfl
